import Mathlib

/-!
# sshc: session registry and pattern-bounded interactive read

A shallow embedding of `client.go` (package `sshc`).

* A Go `string` is a sequence of bytes: `GoString := List UInt8`.
* The package-level state (`instance`, guarded by `once`) and every call made
  to the ssh library or to a session's streams are kept in an explicit
  `World` that each operation receives and returns.
* A `*Session` is embedded by value: no field of a `Session` is assigned
  after `connect` has built it.
* What the outside decides (the answers of the ssh library, the result of a
  stream write, the completion of a stream read, the firing of the timer) is
  an argument of the operation concerned.
-/

namespace sshc

/-! ## Strings -/

/-- Go `string`: an immutable sequence of bytes. -/
abbrev GoString := List UInt8

/-- Bytes of a string literal (Go source text is UTF-8). -/
def lit (s : String) : GoString := s.toUTF8.data.toList

/-- Whether `p` is an initial segment of `s` (the comparison
`s[0:len(p)] == p` used by the substring search). -/
def startsWith : GoString → GoString → Bool
  | _, [] => true
  | [], _ :: _ => false
  | a :: s, b :: p => a == b && startsWith s p

end sshc

namespace strings

/-- Go `strings.Contains(s, substr)`: reports whether `substr` is within `s`,
that is whether `s[i:i+len(substr)] == substr` for some offset `i`. -/
def Contains : sshc.GoString → sshc.GoString → Bool
  | [], substr => sshc.startsWith [] substr
  | a :: s, substr => sshc.startsWith (a :: s) substr || Contains s substr

end strings

namespace sshc

/-! ## Errors, sessions, results -/

/-- An error value created by the ssh, net or io libraries. These libraries
cannot produce the sentinel values of this package. -/
abbrev LibError := Nat

/-- Go `error` values that can reach a caller: the three package-level
sentinels (`errors.New` values, each distinct from every other error), and
the errors of the libraries. A nil `error` is `none : Option Error`. -/
inductive Error where
  | ErrIsBusy
  | ErrTimeOut
  | ErrChannelClose
  | library (e : LibError)
  deriving DecidableEq, Repr

/-- Identity of an object owned by the ssh library (client, session, pipe). -/
abbrev Handle := Nat

/-- Go `type Session struct`. -/
structure Session where
  host : GoString
  w : Handle
  r : Handle
  s : Handle
  c : Handle
  deriving DecidableEq, Repr

/-- Go `type SshOutput struct`. -/
structure SshOutput where
  Number : Int
  Output : GoString
  deriving DecidableEq, Repr

/-- Go `type client struct`: the map from host to session. -/
structure client where
  s : GoString → Option Session

/-- A call made to the ssh library or to a stream of a session. -/
inductive Effect where
  | Dial (host user pass : GoString)
  | NewSession (c : Handle)
  | StdinPipe (s : Handle)
  | StdoutPipe (s : Handle)
  | Shell (s : Handle)
  | Write (w : Handle) (p : GoString)
  | Read (r : Handle)
  | Wait (s : Handle)
  | CloseClient (c : Handle)
  | CloseSession (s : Handle)
  deriving DecidableEq, Repr

/-- Package state and the record of outside calls, oldest first.
`instance_` is the package variable `instance`; it is `none` (nil) exactly
until `once.Do` has run. -/
structure World where
  instance_ : Option client
  log : List Effect

/-- Record one outside call. -/
def World.call (w : World) (e : Effect) : World :=
  { w with log := w.log ++ [e] }

/-- The state of a freshly started process. -/
def World.init : World := { instance_ := none, log := [] }

/-! ## Registry -/

/-- Go `func get() *client`. -/
def get (w : World) : client × World :=
  match w.instance_ with
  | some c => (c, w)
  | none =>
    let c : client := { s := fun _ => none }
    (c, { w with instance_ := some c })

/-- Answers of the ssh library to the calls of one `connect`. -/
structure Dialer where
  Dial : Except LibError Handle
  NewSession : Except LibError Handle
  StdinPipe : Except LibError Handle
  StdoutPipe : Except LibError Handle
  Shell : Option LibError

/-- Go `func connect(host, user, pass string) (*Session, error)`. -/
def connect (host user pass : GoString) (t : Dialer) (w : World) :
    Except Error Session × World :=
  let w := w.call (.Dial host user pass)
  match t.Dial with
  | .error err => (.error (.library err), w)
  | .ok client =>
    let w := w.call (.NewSession client)
    match t.NewSession with
    | .error err => (.error (.library err), w)
    | .ok sess =>
      let w := w.call (.StdinPipe sess)
      match t.StdinPipe with
      | .error err => (.error (.library err), w)
      | .ok wr =>
        let w := w.call (.StdoutPipe sess)
        match t.StdoutPipe with
        | .error err => (.error (.library err), w)
        | .ok r =>
          let w := w.call (.Shell sess)
          match t.Shell with
          | some err => (.error (.library err), w)
          | none => (.ok { host := host, c := client, s := sess, r := r, w := wr }, w)

/-- Go `func Connect(host, user, pass string) (*Session, error)`. -/
def Connect (host user pass : GoString) (t : Dialer) (w : World) :
    Except Error Session × World :=
  let (c, w) := get w
  match c.s host with
  | some _ => (.error .ErrIsBusy, w)
  | none =>
    match connect host user pass t w with
    | (.error err, w) => (.error err, w)
    | (.ok sess, w) =>
      (.ok sess, { w with instance_ := some { s := Function.update c.s host (some sess) } })

/-- Go `func (s *Session) Close()`. -/
def Session.Close (s : Session) (w : World) : World :=
  let w := w.call (.CloseClient s.c)
  let w := w.call (.CloseSession s.s)
  let (c, w) := get w
  { w with instance_ := some { s := Function.update c.s s.host none } }

/-- Go `func (s *Session) Wait() error`; `exit` is what `s.s.Wait()` returns. -/
def Session.Wait (s : Session) (exit : Option LibError) (w : World) : Option Error × World :=
  (exit.map .library, w.call (.Wait s.s))

/-- The registry map as the next call of `get` sees it. -/
def registry (w : World) : GoString → Option Session := (get w).1.s

/-! ## Writing and the bounded read -/

/-- What the `select` of `Session.write` can observe next. -/
inductive Event where
  /-- The `r.Read(buf)` of the running `reader` returns `buf[:n]` and `err`. -/
  | read (n : GoString) (err : Option LibError)
  /-- The timer channel `t.C` fires and `select` takes that case. -/
  | deadline
  deriving DecidableEq, Repr

/-- Go `func reader(r io.Reader, out chan<- string)`, given what `r.Read`
returned: the value sent on `out`, or `none` when it returns without sending. -/
def reader (n : GoString) (err : Option LibError) : Option GoString :=
  match err with
  | some _ => none
  | none => some n

/-- The loop `for strNumber, str := range stopStr` of `Session.write`,
from index `strNumber` on: the index at which it returns, if it does. -/
def rangeStopStr (out : GoString) : List GoString → Nat → Option Nat
  | [], _ => none
  | str :: rest, strNumber =>
    if strings.Contains out str then some strNumber
    else rangeStopStr out rest (strNumber + 1)

/-- The `for { select { ... } }` loop of `Session.write`. `out` is the
accumulator, `running` tells whether a `reader` goroutine is running
(a `read` event is the completion of its `Read`; with no reader running
nothing calls `Read`, so such an event changes nothing). The result is `none`
when the events end while the loop is still blocked in `select`. -/
def selectLoop (r : Handle) (stopStr : List GoString) :
    GoString → Bool → World → List Event → Option ((SshOutput × Option Error) × World)
  | _, _, _, [] => none
  | out, _, w, .deadline :: _ =>
    some (({ Number := -1, Output := out }, some .ErrTimeOut), w)
  | out, false, w, .read _ _ :: evs => selectLoop r stopStr out false w evs
  | out, true, w, .read n err :: evs =>
    match reader n err with
    | none => selectLoop r stopStr out false w evs
    | some d =>
      let out := out ++ d
      match rangeStopStr out stopStr 0 with
      | some strNumber => some (({ Number := strNumber, Output := out }, none), w)
      | none => selectLoop r stopStr out true (w.call (.Read r)) evs

/-- Go `func (s *Session) write(msg string, stopStr ...string) (SshOutput, error)`.
`werr` is the error returned by `wr.Write`; `evs` is what the `select` observes. -/
def Session.write (s : Session) (msg : GoString) (stopStr : List GoString)
    (werr : Option LibError) (evs : List Event) (w : World) :
    Option ((SshOutput × Option Error) × World) :=
  let w := w.call (.Write s.w msg)
  match werr with
  | some err => some (({ Number := -1, Output := [] }, some (.library err)), w)
  | none => selectLoop s.r stopStr [] true (w.call (.Read s.r)) evs

/-- Go `func (s *Session) Write(msg string, stopStr ...string) (SshOutput, error)`. -/
def Session.Write (s : Session) (msg : GoString) (stopStr : List GoString)
    (werr : Option LibError) (evs : List Event) (w : World) :
    Option ((SshOutput × Option Error) × World) :=
  s.write (msg ++ lit "\n") stopStr werr evs w

/-- Go `func (s *Session) Writeln(msg string, stopStr ...string) (SshOutput, error)`. -/
def Session.Writeln (s : Session) (msg : GoString) (stopStr : List GoString)
    (werr : Option LibError) (evs : List Event) (w : World) :
    Option ((SshOutput × Option Error) × World) :=
  s.write (msg ++ lit "\n\n") stopStr werr evs w

/-- Go `func (s *Session) Send(msg string) error`. -/
def Session.Send (s : Session) (msg : GoString) (werr : Option LibError) (w : World) :
    Option Error × World :=
  (werr.map .library, w.call (.Write s.w (msg ++ lit "\n")))

/-! ## Vocabulary of the statements -/

/-- Events of chunks delivered one after another: each is a `Read` that
succeeds with that chunk. -/
def delivered (cs : List GoString) : List Event := cs.map (fun d => Event.read d none)

/-- The world after `k` more `reader` goroutines were started on stream `r`. -/
def World.readsStarted (w : World) (r : Handle) (k : Nat) : World :=
  { w with log := w.log ++ List.replicate k (Effect.Read r) }

/-- One call of the registry interface. -/
inductive Call where
  | Connect (host user pass : GoString) (t : Dialer)
  | Close (s : Session)

/-- A run of the registry: the world, the sessions returned by a successful
`Connect` so far, and those of them not closed since (the live ones). -/
structure Run where
  world : World
  returned : List Session
  live : List Session

/-- Start of a run in world `w`: nothing returned yet. -/
def Run.start (w : World) : Run := { world := w, returned := [], live := [] }

/-- One call, taken alone. A successful `Connect` adds the session it returns
to `returned` and to `live`; `Close s` removes one occurrence of `s` from
`live` (none when `s` is not live). -/
def Run.step (st : Run) : Call → Run
  | .Connect host user pass t =>
    match Connect host user pass t st.world with
    | (.ok s, w) => { world := w, returned := st.returned ++ [s], live := st.live ++ [s] }
    | (.error _, w) => { st with world := w }
  | .Close s =>
    { world := s.Close st.world, returned := st.returned, live := st.live.erase s }

/-- A finite sequence of calls, one at a time. -/
def Run.exec (st : Run) : List Call → Run
  | [] => st
  | c :: cs => (st.step c).exec cs

/-- Every `Close` of the sequence is on a session that an earlier `Connect`
returned. -/
def closesReturned (st : Run) : List Call → Bool
  | [] => true
  | .Close s :: cs => decide (s ∈ st.returned) && closesReturned (st.step (.Close s)) cs
  | c :: cs => closesReturned (st.step c) cs

/-- Every `Close` of the sequence is on a session that is live when it is
closed: no session is closed twice. -/
def closesLive (st : Run) : List Call → Bool
  | [] => true
  | .Close s :: cs => decide (s ∈ st.live) && closesLive (st.step (.Close s)) cs
  | c :: cs => closesLive (st.step c) cs

/-- The live sessions of host `h`. -/
def Run.liveOn (st : Run) (h : GoString) : List Session :=
  st.live.filter (fun s => decide (s.host = h))

/-- The registry holds, for each host, exactly the live sessions of that host. -/
def Run.Consistent (st : Run) : Prop :=
  ∀ h, st.liveOn h = (registry st.world h).toList

/-- A sample session, as `connect` builds it for host `host:22`. -/
def demo : Session := { host := lit "host:22", w := 1, r := 2, s := 3, c := 4 }

/-- A transport that succeeds, with handles numbered from `n`. -/
def dialOk (n : Nat) : Dialer :=
  { Dial := .ok n, NewSession := .ok (n + 1), StdinPipe := .ok (n + 2),
    StdoutPipe := .ok (n + 3), Shell := none }

/-- The session that `connect` builds for `host` from the transport `dialOk n`. -/
def sessionOf (host : GoString) (n : Nat) : Session :=
  { host := host, c := n, s := n + 1, w := n + 2, r := n + 3 }

/-- A sequence of calls in which the first session is closed a second time
after the host has been connected again. -/
def staleClose : List Call :=
  [ .Connect (lit "host:22") (lit "u") (lit "p") (dialOk 10),
    .Close (sessionOf (lit "host:22") 10),
    .Connect (lit "host:22") (lit "u") (lit "p") (dialOk 20),
    .Close (sessionOf (lit "host:22") 10),
    .Connect (lit "host:22") (lit "u") (lit "p") (dialOk 30) ]

/-- A sequence of calls in which every session is closed at most once. -/
def orderly : List Call :=
  [ .Connect (lit "host:22") (lit "u") (lit "p") (dialOk 10),
    .Connect (lit "host:22") (lit "u") (lit "p") (dialOk 20),
    .Close (sessionOf (lit "host:22") 10),
    .Connect (lit "host:22") (lit "u") (lit "p") (dialOk 30) ]

/-! ## Substring search -/

theorem startsWith_iff (s p : GoString) : startsWith s p = true ↔ p <+: s := by
  induction s generalizing p with
  | nil => cases p <;> simp [startsWith]
  | cons a s ih =>
    cases p with
    | nil => simp [startsWith]
    | cons b p =>
      simp only [startsWith, Bool.and_eq_true, beq_iff_eq, ih, List.cons_prefix_cons]
      constructor <;> rintro ⟨h1, h2⟩ <;> exact ⟨h1.symm, h2⟩

/-- The embedding of `strings.Contains` decides the substring relation. -/
theorem Contains_iff (s substr : GoString) :
    strings.Contains s substr = true ↔ substr <:+: s := by
  induction s with
  | nil => simp [strings.Contains, startsWith_iff]
  | cons a s ih =>
    simp [strings.Contains, startsWith_iff, ih, List.infix_cons_iff]

theorem rangeStopStr_none (out : GoString) (l : List GoString) (k : Nat) :
    rangeStopStr out l k = none ↔ ∀ m ∈ l, ¬ m <:+: out := by
  induction l generalizing k with
  | nil => simp [rangeStopStr]
  | cons str rest ih =>
    simp only [rangeStopStr]
    split
    · rename_i h
      simp [(Contains_iff _ _).1 h]
    · rename_i h
      rw [ih]
      simp [(Contains_iff _ _).not.1 h]

theorem rangeStopStr_some (out : GoString) (l : List GoString) (k i : Nat) :
    rangeStopStr out l k = some i ↔
      k ≤ i ∧ (∃ m, l[i - k]? = some m ∧ m <:+: out) ∧
        ∀ j, j < i - k → ∀ m, l[j]? = some m → ¬ m <:+: out := by
  induction l generalizing k with
  | nil => simp [rangeStopStr]
  | cons str rest ih =>
    simp only [rangeStopStr]
    split
    · rename_i h
      have h := (Contains_iff _ _).1 h
      constructor
      · intro e
        simp at e
        subst e
        simp [h]
      · rintro ⟨hk, ⟨m, hm, hin⟩, hall⟩
        by_cases hz : i - k = 0
        · simp; omega
        · exact absurd h (hall 0 (by omega) str (by simp))
    · rename_i h
      have h := (Contains_iff _ _).not.1 h
      rw [ih]
      constructor
      · rintro ⟨hk, ⟨m, hm, hin⟩, hall⟩
        refine ⟨by omega, ⟨m, ?_, hin⟩, ?_⟩
        · have : i - k = (i - (k + 1)) + 1 := by omega
          rw [this]; simpa using hm
        · intro j hj m' hm'
          cases j with
          | zero => simp at hm'; subst hm'; exact h
          | succ j => exact hall j (by omega) m' (by simpa using hm')
      · rintro ⟨hk, ⟨m, hm, hin⟩, hall⟩
        have hne : i - k ≠ 0 := by
          intro hz
          rw [hz] at hm
          simp at hm
          subst hm
          exact h hin
        have e : i - k = (i - (k + 1)) + 1 := by omega
        refine ⟨by omega, ⟨m, ?_, hin⟩, ?_⟩
        · rw [e] at hm; simpa using hm
        · intro j hj m' hm'
          exact hall (j + 1) (by omega) m' (by simpa using hm')

/-- What a returned index of the marker loop means. -/
theorem rangeStopStr_least (out : GoString) (l : List GoString) (i : Nat)
    (h : rangeStopStr out l 0 = some i) :
    (∃ m, l[i]? = some m ∧ m <:+: out) ∧
      ∀ j, j < i → ∀ m, l[j]? = some m → ¬ m <:+: out := by
  have := (rangeStopStr_some out l 0 i).1 h
  simpa using this

/-! ## The select loop -/

theorem readsStarted_zero (w : World) (r : Handle) : w.readsStarted r 0 = w := by
  cases w; simp [World.readsStarted]

theorem readsStarted_call (w : World) (r : Handle) (k : Nat) :
    (w.call (.Read r)).readsStarted r k = w.readsStarted r (k + 1) := by
  simp [World.readsStarted, World.call, List.replicate_succ]

theorem call_eq_readsStarted (w : World) (r : Handle) :
    w.call (.Read r) = w.readsStarted r 1 := by
  simp [World.readsStarted, World.call]

theorem selectLoop_chunk_match (r : Handle) (stopStr : List GoString) (out d : GoString)
    (w : World) (rest : List Event) (i : Nat)
    (h : rangeStopStr (out ++ d) stopStr 0 = some i) :
    selectLoop r stopStr out true w (Event.read d none :: rest)
      = some (({ Number := i, Output := out ++ d }, none), w) := by
  simp [selectLoop, reader, h]

theorem selectLoop_chunk_noMatch (r : Handle) (stopStr : List GoString) (out d : GoString)
    (w : World) (rest : List Event)
    (h : rangeStopStr (out ++ d) stopStr 0 = none) :
    selectLoop r stopStr out true w (Event.read d none :: rest)
      = selectLoop r stopStr (out ++ d) true (w.call (.Read r)) rest := by
  simp [selectLoop, reader, h]

theorem selectLoop_delivered_noMatch (r : Handle) (stopStr : List GoString)
    (cs : List GoString) (out : GoString) (w : World) (rest : List Event)
    (h : ∀ j, 1 ≤ j → j ≤ cs.length →
      ∀ m ∈ stopStr, ¬ m <:+: out ++ (cs.take j).flatten) :
    selectLoop r stopStr out true w (delivered cs ++ rest)
      = selectLoop r stopStr (out ++ cs.flatten) true (w.readsStarted r cs.length) rest := by
  induction cs generalizing out w with
  | nil => simp [delivered, readsStarted_zero]
  | cons c cs ih =>
    have h1 : rangeStopStr (out ++ c) stopStr 0 = none := by
      rw [rangeStopStr_none]
      intro m hm
      simpa using h 1 (by omega) (by simp) m hm
    have e : delivered (c :: cs) ++ rest = Event.read c none :: (delivered cs ++ rest) := by
      simp [delivered]
    rw [e, selectLoop_chunk_noMatch _ _ _ _ _ _ h1, ih]
    · simp [readsStarted_call, List.append_assoc]
    · intro j hj1 hj2 m hm
      have := h (j + 1) (by omega) (by simp; omega) m hm
      simpa [List.append_assoc] using this

/-- The loop returns at the first chunk after which a marker matches. -/
theorem selectLoop_first_match (r : Handle) (stopStr : List GoString)
    (cs : List GoString) (out : GoString) (w : World) (rest : List Event) (k : Nat)
    (hk1 : 1 ≤ k) (hk2 : k ≤ cs.length)
    (hmatch : ∃ m ∈ stopStr, m <:+: out ++ (cs.take k).flatten)
    (hleast : ∀ j, 1 ≤ j → j < k → ∀ m ∈ stopStr, ¬ m <:+: out ++ (cs.take j).flatten) :
    ∃ i : Nat, selectLoop r stopStr out true w (delivered cs ++ rest)
      = some (({ Number := i, Output := out ++ (cs.take k).flatten }, none),
          w.readsStarted r (k - 1)) := by
  induction cs generalizing out w k with
  | nil => simp at hk2; omega
  | cons c cs ih =>
    have e : delivered (c :: cs) ++ rest = Event.read c none :: (delivered cs ++ rest) := by
      simp [delivered]
    rw [e]
    by_cases hk : k = 1
    · subst hk
      cases hm : rangeStopStr (out ++ c) stopStr 0 with
      | none =>
        rw [rangeStopStr_none] at hm
        obtain ⟨m, hmem, hin⟩ := hmatch
        exact absurd (by simpa using hin) (hm m hmem)
      | some i =>
        refine ⟨i, ?_⟩
        rw [selectLoop_chunk_match _ _ _ _ _ _ _ hm]
        simp [readsStarted_zero]
    · have h1 : rangeStopStr (out ++ c) stopStr 0 = none := by
        rw [rangeStopStr_none]
        intro m hm
        simpa using hleast 1 (by omega) (by omega) m hm
      rw [selectLoop_chunk_noMatch _ _ _ _ _ _ h1]
      obtain ⟨k', rfl⟩ : ∃ k', k = k' + 1 := ⟨k - 1, by omega⟩
      obtain ⟨i, hi⟩ := ih (out ++ c) (w.call (.Read r)) k' (by omega)
        (by simpa using hk2)
        (by simpa [List.append_assoc] using hmatch)
        (by
          intro j hj1 hj2 m hm
          have := hleast (j + 1) (by omega) (by omega) m hm
          simpa [List.append_assoc] using this)
      refine ⟨i, ?_⟩
      rw [hi, readsStarted_call]
      have : k' - 1 + 1 = k' + 1 - 1 := by omega
      simp [List.append_assoc, this]

/-- Once some marker is within the chunks delivered, the loop has returned a
match at one of them. -/
theorem selectLoop_some_match (r : Handle) (stopStr : List GoString)
    (cs : List GoString) (out : GoString) (w : World) (rest : List Event)
    (hne : cs ≠ [])
    (hmatch : ∃ m ∈ stopStr, m <:+: out ++ cs.flatten) :
    ∃ (i k : Nat) (w' : World), 1 ≤ k ∧ k ≤ cs.length ∧
      selectLoop r stopStr out true w (delivered cs ++ rest)
        = some (({ Number := i, Output := out ++ (cs.take k).flatten }, none), w') := by
  induction cs generalizing out w with
  | nil => exact absurd rfl hne
  | cons c cs ih =>
    have e : delivered (c :: cs) ++ rest = Event.read c none :: (delivered cs ++ rest) := by
      simp [delivered]
    rw [e]
    cases hm : rangeStopStr (out ++ c) stopStr 0 with
    | some i =>
      refine ⟨i, 1, w, le_refl _, by simp, ?_⟩
      rw [selectLoop_chunk_match _ _ _ _ _ _ _ hm]
      simp
    | none =>
      rw [selectLoop_chunk_noMatch _ _ _ _ _ _ hm]
      have hcs : cs ≠ [] := by
        rintro rfl
        rw [rangeStopStr_none] at hm
        obtain ⟨m, hmem, hin⟩ := hmatch
        exact hm m hmem (by simpa using hin)
      obtain ⟨i, k, w', hk1, hk2, hres⟩ := ih (out ++ c) (w.call (.Read r)) hcs
        (by simpa [List.append_assoc] using hmatch)
      refine ⟨i, k + 1, w', by omega, by simpa using hk2, ?_⟩
      rw [hres]
      simp [List.append_assoc]

theorem selectLoop_idle (r : Handle) (stopStr : List GoString) (out : GoString) (w : World)
    (mid : List Event) (hmid : Event.deadline ∉ mid) (rest : List Event) :
    selectLoop r stopStr out false w (mid ++ rest) = selectLoop r stopStr out false w rest := by
  induction mid with
  | nil => rfl
  | cons e mid ih =>
    cases e with
    | deadline => simp at hmid
    | read n err =>
      simp only [List.cons_append, selectLoop]
      exact ih (by simpa using hmid)

theorem selectLoop_deadline (r : Handle) (stopStr : List GoString) (out : GoString) (b : Bool)
    (w : World) (rest : List Event) :
    selectLoop r stopStr out b w (Event.deadline :: rest)
      = some (({ Number := -1, Output := out }, some .ErrTimeOut), w) := by
  cases b <;> simp [selectLoop]

/-- Shape of every result of the loop. -/
theorem selectLoop_result (r : Handle) (stopStr : List GoString) (evs : List Event)
    (out : GoString) (b : Bool) (w : World) (o : SshOutput) (err : Option Error) (w' : World)
    (h : selectLoop r stopStr out b w evs = some ((o, err), w')) :
    (err = some .ErrTimeOut ∧ o.Number = -1) ∨
      (err = none ∧ ∃ i : Nat, o.Number = i ∧ rangeStopStr o.Output stopStr 0 = some i) := by
  induction evs generalizing out b w with
  | nil => simp [selectLoop] at h
  | cons e evs ih =>
    cases e with
    | deadline =>
      rw [selectLoop_deadline] at h
      simp at h
      obtain ⟨⟨rfl, rfl⟩, -⟩ := h
      simp
    | read n err' =>
      cases b with
      | false => simp only [selectLoop] at h; exact ih _ _ _ h
      | true =>
        cases err' with
        | some e' => simp only [selectLoop, reader] at h; exact ih _ _ _ h
        | none =>
          cases hm : rangeStopStr (out ++ n) stopStr 0 with
          | none =>
            rw [selectLoop_chunk_noMatch _ _ _ _ _ _ hm] at h
            exact ih _ _ _ h
          | some i =>
            rw [selectLoop_chunk_match _ _ _ _ _ _ _ hm] at h
            simp at h
            obtain ⟨⟨rfl, rfl⟩, -⟩ := h
            right
            exact ⟨rfl, i, rfl, hm⟩

/-- The loop returns once the timer has fired. -/
theorem selectLoop_returns (r : Handle) (stopStr : List GoString) (evs rest : List Event)
    (out : GoString) (b : Bool) (w : World) :
    ∃ res, selectLoop r stopStr out b w (evs ++ Event.deadline :: rest) = some res := by
  induction evs generalizing out b w with
  | nil => exact ⟨_, selectLoop_deadline _ _ _ _ _ _⟩
  | cons e evs ih =>
    cases e with
    | deadline => exact ⟨_, selectLoop_deadline _ _ _ _ _ _⟩
    | read n err' =>
      cases b with
      | false => simp only [List.cons_append, selectLoop]; exact ih _ _ _
      | true =>
        cases err' with
        | some e' => simp only [List.cons_append, selectLoop, reader]; exact ih _ _ _
        | none =>
          cases hm : rangeStopStr (out ++ n) stopStr 0 with
          | none =>
            rw [List.cons_append, selectLoop_chunk_noMatch _ _ _ _ _ _ hm]
            exact ih _ _ _
          | some i =>
            rw [List.cons_append, selectLoop_chunk_match _ _ _ _ _ _ _ hm]
            exact ⟨_, rfl⟩

/-- Without the timer firing, a loop with no reader running stays blocked. -/
theorem selectLoop_idle_blocked (r : Handle) (stopStr : List GoString) (out : GoString)
    (w : World) (mid : List Event) (hmid : Event.deadline ∉ mid) :
    selectLoop r stopStr out false w mid = none := by
  have := selectLoop_idle r stopStr out w mid hmid []
  simpa [selectLoop] using this

/-! ## `Session.write` -/

theorem registry_call (w : World) (e : Effect) : registry (w.call e) = registry w := by
  cases w with
  | mk i l => cases i <;> rfl

theorem write_ok (s : Session) (msg : GoString) (stopStr : List GoString)
    (evs : List Event) (w : World) :
    s.write msg stopStr none evs w
      = selectLoop s.r stopStr [] true ((w.call (.Write s.w msg)).readsStarted s.r 1) evs := by
  simp [Session.write, call_eq_readsStarted]

theorem write_result (s : Session) (msg : GoString) (stopStr : List GoString)
    (werr : Option LibError) (evs : List Event) (w w' : World) (o : SshOutput)
    (err : Option Error)
    (h : s.write msg stopStr werr evs w = some ((o, err), w')) :
    (err ≠ none ∧ o.Number = -1) ∨
      (err = none ∧ ∃ i : Nat, o.Number = i ∧ rangeStopStr o.Output stopStr 0 = some i) := by
  cases werr with
  | some e =>
    simp [Session.write] at h
    obtain ⟨⟨rfl, rfl⟩, -⟩ := h
    left; simp
  | none =>
    rw [write_ok] at h
    rcases selectLoop_result _ _ _ _ _ _ _ _ _ h with ⟨h1, h2⟩ | h2
    · left; simp [h1, h2]
    · right; exact h2

theorem write_returns (s : Session) (msg : GoString) (stopStr : List GoString)
    (werr : Option LibError) (evs rest : List Event) (w : World) :
    ∃ res, s.write msg stopStr werr (evs ++ Event.deadline :: rest) w = some res := by
  cases werr with
  | some e => exact ⟨_, rfl⟩
  | none =>
    rw [write_ok]
    exact selectLoop_returns _ _ _ _ _ _ _

/-! ## Claims on the bounded read -/

/-- C1 (marker priority). Whenever `Session.write` (the body of `Write` and
`Writeln`) returns a match, that is a result with a nil error, the returned
`Number` is the smallest index `i` such that `stopStr[i]` is a substring of the
returned `Output`, wherever in the text the markers occur. -/
theorem C1_marker_priority (s : Session) (msg : GoString) (stopStr : List GoString)
    (werr : Option LibError) (evs : List Event) (w w' : World) (o : SshOutput)
    (h : s.write msg stopStr werr evs w = some ((o, none), w')) :
    ∃ i : Nat, o.Number = i ∧ (∃ m, stopStr[i]? = some m ∧ m <:+: o.Output) ∧
      ∀ j, j < i → ∀ m, stopStr[j]? = some m → ¬ m <:+: o.Output := by
  rcases write_result s msg stopStr werr evs w w' o none h with ⟨h1, -⟩ | ⟨-, i, hi, hr⟩
  · exact absurd rfl h1
  · exact ⟨i, hi, rangeStopStr_least _ _ _ hr⟩

/-- Markers `["b","a"]` and the single chunk `"a...b"`: `Write` returns index 0. -/
theorem C1_marker_priority_witness :
    demo.Write (lit "ls") [lit "b", lit "a"] none [Event.read (lit "a...b") none] World.init
        = some (({ Number := 0, Output := lit "a...b" }, none),
            (World.init.call (.Write demo.w (lit "ls\n"))).call (.Read demo.r)) ∧
      ∃ i : Nat, (0 : Int) = i ∧
        (∃ m, [lit "b", lit "a"][i]? = some m ∧ m <:+: lit "a...b") ∧
        ∀ j, j < i → ∀ m, [lit "b", lit "a"][j]? = some m → ¬ m <:+: lit "a...b" :=
  ⟨rfl, C1_marker_priority demo (lit "ls" ++ lit "\n") [lit "b", lit "a"] none
    [Event.read (lit "a...b") none] World.init _ { Number := 0, Output := lit "a...b" } rfl⟩

/-- C2 as stated fails when no chunk is delivered: the empty marker is a
substring of the empty concatenation, yet `Write` returns `ErrTimeOut`. -/
theorem C2_counterexample :
    (∃ m ∈ [lit ""], m <:+: ([] : List GoString).flatten) ∧
      demo.Write (lit "ls") [lit ""] none (delivered [] ++ [Event.deadline]) World.init
        = some (({ Number := -1, Output := [] }, some Error.ErrTimeOut),
            (World.init.call (.Write demo.w (lit "ls\n"))).call (.Read demo.r)) :=
  ⟨⟨lit "", by decide, by decide⟩, rfl⟩

/-- C2 (split-marker detection, amended). For every marker list and every
sequence of at least one chunk delivered before the deadline, if some marker is
a substring of the concatenation of the delivered chunks, `Session.write`
returns a match with a nil error: its `Output` is the concatenation of the
first `k` chunks for some `k ≥ 1`, whether or not a single chunk holds the
marker. -/
theorem C2_split_marker (s : Session) (msg : GoString) (stopStr : List GoString)
    (chunks : List GoString) (rest : List Event) (w : World)
    (hne : chunks ≠ [])
    (h : ∃ m ∈ stopStr, m <:+: chunks.flatten) :
    ∃ (i k : Nat) (w' : World), 1 ≤ k ∧ k ≤ chunks.length ∧
      s.write msg stopStr none (delivered chunks ++ rest) w
        = some (({ Number := i, Output := (chunks.take k).flatten }, none), w') := by
  rw [write_ok]
  simpa using selectLoop_some_match s.r stopStr chunks [] _ rest hne (by simpa using h)

/-- Marker `"done"` arriving as `"do"` then `"ne"` is found: index 0, output
`"done"`. -/
theorem C2_split_marker_witness :
    [lit "do", lit "ne"] ≠ [] ∧
      (∃ m ∈ [lit "done"], m <:+: [lit "do", lit "ne"].flatten) ∧
      demo.Write (lit "ls") [lit "done"] none
          (delivered [lit "do", lit "ne"] ++ [Event.deadline]) World.init
        = some (({ Number := 0, Output := lit "done" }, none),
            (World.init.call (.Write demo.w (lit "ls\n"))).readsStarted demo.r 2) ∧
      ∃ (i k : Nat) (w' : World), 1 ≤ k ∧ k ≤ [lit "do", lit "ne"].length ∧
        demo.write (lit "ls" ++ lit "\n") [lit "done"] none
            (delivered [lit "do", lit "ne"] ++ [Event.deadline]) World.init
          = some (({ Number := i, Output := ([lit "do", lit "ne"].take k).flatten }, none), w') :=
  ⟨by decide, ⟨lit "done", by decide, by decide⟩, rfl,
    C2_split_marker demo (lit "ls" ++ lit "\n") [lit "done"] [lit "do", lit "ne"]
      [Event.deadline] World.init (by decide) ⟨lit "done", by decide, by decide⟩⟩

/-- C3 (timeout returns partial output). If the chunks `c1..cn` are delivered
before the deadline and no marker is a substring of any `c1++...++cj`
(`1 ≤ j ≤ n`), then when the deadline fires `Session.write` returns
`Number = -1`, the error `ErrTimeOut` and `Output = c1++...++cn`; that output is
non-empty whenever some delivered chunk is non-empty. -/
theorem C3_timeout_partial_output (s : Session) (msg : GoString) (stopStr : List GoString)
    (chunks : List GoString) (rest : List Event) (w : World)
    (h : ∀ j, 1 ≤ j → j ≤ chunks.length →
      ∀ m ∈ stopStr, ¬ m <:+: (chunks.take j).flatten) :
    s.write msg stopStr none (delivered chunks ++ Event.deadline :: rest) w
        = some (({ Number := -1, Output := chunks.flatten }, some Error.ErrTimeOut),
            (w.call (.Write s.w msg)).readsStarted s.r (chunks.length + 1)) ∧
      ((∃ c ∈ chunks, c ≠ []) → chunks.flatten ≠ []) := by
  constructor
  · rw [write_ok, selectLoop_delivered_noMatch _ _ _ _ _ _ (by simpa using h),
      selectLoop_deadline]
    simp [World.readsStarted, World.call, ← List.replicate_succ, Nat.add_comm]
  · rintro ⟨c, hc, hne⟩ hflat
    rw [List.flatten_eq_nil_iff] at hflat
    exact hne (hflat c hc)

/-- Marker `"#"`, chunks `"abc"` and `"de"`, then the deadline: the partial
output `"abcde"` comes back with `ErrTimeOut`. -/
theorem C3_timeout_partial_output_witness :
    (∀ j, 1 ≤ j → j ≤ [lit "abc", lit "de"].length →
        ∀ m ∈ [lit "#"], ¬ m <:+: ([lit "abc", lit "de"].take j).flatten) ∧
      (demo.write (lit "ls\n") [lit "#"] none
          (delivered [lit "abc", lit "de"] ++ Event.deadline :: []) World.init
        = some (({ Number := -1, Output := [lit "abc", lit "de"].flatten },
              some Error.ErrTimeOut),
            (World.init.call (.Write demo.w (lit "ls\n"))).readsStarted demo.r
              ([lit "abc", lit "de"].length + 1)) ∧
        ((∃ c ∈ [lit "abc", lit "de"], c ≠ []) → [lit "abc", lit "de"].flatten ≠ [])) :=
  have hyp : ∀ j, 1 ≤ j → j ≤ [lit "abc", lit "de"].length →
      ∀ m ∈ [lit "#"], ¬ m <:+: ([lit "abc", lit "de"].take j).flatten := by
    intro j h1 h2 m hm
    have hj : j = 1 ∨ j = 2 := by
      simp only [List.length_cons, List.length_nil] at h2
      omega
    have hm' : m = lit "#" := by simpa using hm
    subst hm'
    rcases hj with rfl | rfl <;> decide
  ⟨hyp, C3_timeout_partial_output demo (lit "ls\n") [lit "#"] [lit "abc", lit "de"] []
    World.init hyp⟩

/-- C7 (meaning of the result index). Every call of `Write` or `Writeln`
returns once the deadline has fired, whatever the text, the markers, the
outcome of the stream write and the events before the deadline; and in every
result the `Number` is `-1` exactly when the error is non-nil, while with a nil
error `0 ≤ Number < len(stopStr)` and `stopStr[Number]` is a substring of
`Output`. -/
theorem C7_result_index (s : Session) (msg : GoString) (stopStr : List GoString)
    (werr : Option LibError) (evs rest : List Event) (w : World) :
    (∃ res, s.Write msg stopStr werr (evs ++ Event.deadline :: rest) w = some res) ∧
    (∃ res, s.Writeln msg stopStr werr (evs ++ Event.deadline :: rest) w = some res) ∧
    ∀ (o : SshOutput) (err : Option Error) (w' : World),
      (s.Write msg stopStr werr evs w = some ((o, err), w') ∨
        s.Writeln msg stopStr werr evs w = some ((o, err), w')) →
      (o.Number = -1 ↔ err ≠ none) ∧
      (err = none → 0 ≤ o.Number ∧ o.Number < stopStr.length ∧
        ∃ m, stopStr[o.Number.toNat]? = some m ∧ m <:+: o.Output) := by
  refine ⟨write_returns _ _ _ _ _ _ _, write_returns _ _ _ _ _ _ _, ?_⟩
  intro o err w' h
  have key : (err ≠ none ∧ o.Number = -1) ∨
      (err = none ∧ ∃ i : Nat, o.Number = i ∧ rangeStopStr o.Output stopStr 0 = some i) := by
    rcases h with h | h
    · exact write_result s _ stopStr werr evs w w' o err h
    · exact write_result s _ stopStr werr evs w w' o err h
  rcases key with ⟨h1, h2⟩ | ⟨h1, i, hi, hr⟩
  · exact ⟨⟨fun _ => h1, fun _ => h2⟩, fun h => absurd h h1⟩
  · obtain ⟨⟨m, hm, hin⟩, -⟩ := rangeStopStr_least _ _ _ hr
    have hlt : i < stopStr.length := by
      by_contra hge
      rw [List.getElem?_eq_none (by omega)] at hm
      exact Option.noConfusion hm
    refine ⟨⟨fun h => ?_, fun h => absurd h1 h⟩, fun _ => ⟨?_, ?_, m, ?_, hin⟩⟩
    · rw [hi] at h; omega
    · rw [hi]; omega
    · rw [hi]; exact_mod_cast hlt
    · rw [hi]; simpa using hm

/-- C8 (write failure aborts and leaves state intact). If the write to the
input stream fails with `e`, `Write` and `Writeln` return exactly that error
(which is not `ErrTimeOut`) with `Number = -1` and `Output = ""`; the only call
made to the outside is that stream write (no read of the output stream, no
close), and the package state, hence the registry and the session's own
entry, is unchanged. -/
theorem C8_write_failure (s : Session) (msg : GoString) (stopStr : List GoString)
    (e : LibError) (evs : List Event) (w : World) :
    (∃ w', s.Write msg stopStr (some e) evs w
        = some (({ Number := -1, Output := [] }, some (Error.library e)), w') ∧
      w'.log = w.log ++ [Effect.Write s.w (msg ++ lit "\n")] ∧
      w'.instance_ = w.instance_ ∧ registry w' = registry w) ∧
    (∃ w', s.Writeln msg stopStr (some e) evs w
        = some (({ Number := -1, Output := [] }, some (Error.library e)), w') ∧
      w'.log = w.log ++ [Effect.Write s.w (msg ++ lit "\n\n")] ∧
      w'.instance_ = w.instance_ ∧ registry w' = registry w) ∧
    Error.library e ≠ Error.ErrTimeOut :=
  ⟨⟨_, rfl, rfl, rfl, registry_call _ _⟩, ⟨_, rfl, rfl, rfl, registry_call _ _⟩,
    fun h => Error.noConfusion h⟩

/-- C9 (silent read failure is reported as a timeout). After chunks `c1..cn`
(`n ≥ 0`) that produced no match, if the next read of the output stream fails
with `e` (even with bytes `n` returned along), the `reader` sends nothing, no
further read is started, the call stays blocked as long as the deadline has
not fired, and when it fires `Session.write` returns `Number = -1`,
`Output = c1++...++cn` and `ErrTimeOut`, never the read error. -/
theorem C9_silent_read_failure (s : Session) (msg : GoString) (stopStr : List GoString)
    (chunks : List GoString) (n : GoString) (e : LibError) (mid rest : List Event)
    (w : World)
    (h : ∀ j, 1 ≤ j → j ≤ chunks.length →
      ∀ m ∈ stopStr, ¬ m <:+: (chunks.take j).flatten)
    (hmid : Event.deadline ∉ mid) :
    reader n (some e) = none ∧
    s.write msg stopStr none (delivered chunks ++ Event.read n (some e) :: mid) w = none ∧
    s.write msg stopStr none
        (delivered chunks ++ Event.read n (some e) :: (mid ++ Event.deadline :: rest)) w
      = some (({ Number := -1, Output := chunks.flatten }, some Error.ErrTimeOut),
          (w.call (.Write s.w msg)).readsStarted s.r (chunks.length + 1)) ∧
    Error.ErrTimeOut ≠ Error.library e := by
  have hw : ((w.call (.Write s.w msg)).readsStarted s.r 1).readsStarted s.r chunks.length
      = (w.call (.Write s.w msg)).readsStarted s.r (chunks.length + 1) := by
    simp [World.readsStarted, World.call, ← List.replicate_succ, Nat.add_comm]
  refine ⟨rfl, ?_, ?_, fun h => Error.noConfusion h⟩
  · rw [write_ok, selectLoop_delivered_noMatch _ _ _ _ _ _ (by simpa using h)]
    simp only [selectLoop, reader]
    exact selectLoop_idle_blocked _ _ _ _ _ hmid
  · rw [write_ok, selectLoop_delivered_noMatch _ _ _ _ _ _ (by simpa using h)]
    simp only [selectLoop, reader]
    rw [selectLoop_idle _ _ _ _ _ hmid, selectLoop_deadline, hw]
    simp

/-- Marker `"#"`, chunk `"abc"`, then a read failing with half a chunk, then
the deadline. -/
theorem C9_silent_read_failure_witness :
    (∀ j, 1 ≤ j → j ≤ [lit "abc"].length →
        ∀ m ∈ [lit "#"], ¬ m <:+: ([lit "abc"].take j).flatten) ∧
      Event.deadline ∉ ([] : List Event) ∧
      (reader (lit "x#") (some 7) = none ∧
        demo.write (lit "ls\n") [lit "#"] none
            (delivered [lit "abc"] ++ Event.read (lit "x#") (some 7) :: []) World.init = none ∧
        demo.write (lit "ls\n") [lit "#"] none
            (delivered [lit "abc"] ++
              Event.read (lit "x#") (some 7) :: ([] ++ Event.deadline :: [])) World.init
          = some (({ Number := -1, Output := [lit "abc"].flatten }, some Error.ErrTimeOut),
              (World.init.call (.Write demo.w (lit "ls\n"))).readsStarted demo.r
                ([lit "abc"].length + 1)) ∧
        Error.ErrTimeOut ≠ Error.library 7) :=
  have hyp : ∀ j, 1 ≤ j → j ≤ [lit "abc"].length →
      ∀ m ∈ [lit "#"], ¬ m <:+: ([lit "abc"].take j).flatten := by
    intro j h1 h2 m hm
    have hj : j = 1 := by
      simp only [List.length_cons, List.length_nil] at h2
      omega
    have hm' : m = lit "#" := by simpa using hm
    subst hm' hj
    decide
  ⟨hyp, by simp, C9_silent_read_failure demo (lit "ls\n") [lit "#"] [lit "abc"] (lit "x#") 7
    [] [] World.init hyp (by simp)⟩

/-- C10 (the bounded read stops at the earliest matching chunk). If `k ≥ 1` is
the least number such that some marker is a substring of `c1++...++ck`, then
`Session.write` returns a match with `Output = c1++...++ck`, having started
exactly `k` reads, whatever follows `ck`. The markers are checked only after a
chunk is delivered: with an empty marker list every result carries an error,
and with an empty-string marker among the markers the call is still blocked
before any event, times out with empty output if the deadline comes first, and
returns a match with `Output = d` on the first delivered chunk `d`. -/
theorem C10_earliest_match (s : Session) (msg : GoString) (w : World) :
    (∀ (stopStr chunks : List GoString) (k : Nat) (rest : List Event),
      1 ≤ k → k ≤ chunks.length →
      (∃ m ∈ stopStr, m <:+: (chunks.take k).flatten) →
      (∀ j, 1 ≤ j → j < k → ∀ m ∈ stopStr, ¬ m <:+: (chunks.take j).flatten) →
      ∃ i : Nat, s.write msg stopStr none (delivered chunks ++ rest) w
        = some (({ Number := i, Output := (chunks.take k).flatten }, none),
            (w.call (.Write s.w msg)).readsStarted s.r k)) ∧
    (∀ (werr : Option LibError) (evs : List Event) (o : SshOutput) (err : Option Error)
        (w' : World),
      s.write msg [] werr evs w = some ((o, err), w') → err ≠ none ∧ o.Number = -1) ∧
    (∀ (stopStr : List GoString) (d : GoString) (rest : List Event), [] ∈ stopStr →
      s.write msg stopStr none [] w = none ∧
      s.write msg stopStr none (Event.deadline :: rest) w
        = some (({ Number := -1, Output := [] }, some Error.ErrTimeOut),
            (w.call (.Write s.w msg)).readsStarted s.r 1) ∧
      ∃ i : Nat, s.write msg stopStr none (Event.read d none :: rest) w
        = some (({ Number := i, Output := d }, none),
            (w.call (.Write s.w msg)).readsStarted s.r 1)) := by
  refine ⟨?_, ?_, ?_⟩
  · intro stopStr chunks k rest hk1 hk2 hmatch hleast
    obtain ⟨i, hi⟩ := selectLoop_first_match s.r stopStr chunks []
      ((w.call (.Write s.w msg)).readsStarted s.r 1) rest k hk1 hk2
      (by simpa using hmatch) (by simpa using hleast)
    refine ⟨i, ?_⟩
    rw [write_ok, hi]
    obtain ⟨k', rfl⟩ : ∃ k', k = k' + 1 := ⟨k - 1, by omega⟩
    simp [World.readsStarted, World.call, List.replicate_succ]
  · intro werr evs o err w' h
    rcases write_result s msg [] werr evs w w' o err h with h1 | ⟨-, i, -, hr⟩
    · exact h1
    · simp [rangeStopStr] at hr
  · intro stopStr d rest hmem
    refine ⟨by simp [write_ok, selectLoop], by rw [write_ok, selectLoop_deadline], ?_⟩
    cases hm : rangeStopStr ([] ++ d) stopStr 0 with
    | none =>
      rw [rangeStopStr_none] at hm
      exact absurd List.nil_infix (hm [] hmem)
    | some i =>
      refine ⟨i, ?_⟩
      rw [write_ok, selectLoop_chunk_match _ _ _ _ _ _ _ hm]
      simp

/-- Markers `["#", ">"]`, chunks `"a"`, `"b>"`, `"c#"`: the call returns after
the second chunk with index 1; and the empty marker on a first chunk `"x"`. -/
theorem C10_earliest_match_witness :
    (∃ i : Nat, demo.write (lit "ls\n") [lit "#", lit ">"] none
        (delivered [lit "a", lit "b>", lit "c#"] ++ [Event.deadline]) World.init
      = some (({ Number := i, Output := ([lit "a", lit "b>", lit "c#"].take 2).flatten }, none),
          (World.init.call (.Write demo.w (lit "ls\n"))).readsStarted demo.r 2)) ∧
    demo.write (lit "ls\n") [lit "#", lit ">"] none
        (delivered [lit "a", lit "b>", lit "c#"] ++ [Event.deadline]) World.init
      = some (({ Number := 1, Output := lit "ab>" }, none),
          (World.init.call (.Write demo.w (lit "ls\n"))).readsStarted demo.r 2) ∧
    ∃ i : Nat, demo.write (lit "ls\n") [lit "#", lit ""] none
        (Event.read (lit "x") none :: []) World.init
      = some (({ Number := i, Output := lit "x" }, none),
          (World.init.call (.Write demo.w (lit "ls\n"))).readsStarted demo.r 1) :=
  ⟨(C10_earliest_match demo (lit "ls\n") World.init).1 [lit "#", lit ">"]
      [lit "a", lit "b>", lit "c#"] 2 [Event.deadline] (by decide) (by decide)
      ⟨lit ">", by decide, by decide⟩
      (by
        intro j h1 h2 m hm
        have hj : j = 1 := by omega
        subst hj
        have hm' : m = lit "#" ∨ m = lit ">" := by simpa using hm
        rcases hm' with rfl | rfl <;> decide),
    rfl,
    ((C10_earliest_match demo (lit "ls\n") World.init).2.2 [lit "#", lit ""] (lit "x") []
      (by decide)).2.2⟩

/-! ## The registry -/

theorem registry_of_instance (c : client) (l : List Effect) :
    registry { instance_ := some c, log := l } = c.s := rfl

theorem get_snd_instance (w : World) : (get w).2.instance_ = some (get w).1 := by
  cases w with
  | mk i l => cases i <;> rfl

theorem get_fst_s (w : World) : (get w).1.s = registry w := rfl

theorem get_of_entry (w : World) (host : GoString) (s0 : Session)
    (h : registry w host = some s0) : get w = ((get w).1, w) := by
  cases w with
  | mk i l =>
    cases i with
    | none => simp [registry, get] at h
    | some c => rfl

theorem connect_instance (host user pass : GoString) (t : Dialer) (w : World) :
    (connect host user pass t w).2.instance_ = w.instance_ := by
  unfold connect
  repeat' split
  all_goals rfl

theorem connect_host (host user pass : GoString) (t : Dialer) (w w' : World) (s : Session)
    (h : connect host user pass t w = (.ok s, w')) : s.host = host := by
  unfold connect at h
  repeat' split at h
  all_goals simp at h
  obtain ⟨rfl, -⟩ := h
  rfl

theorem registry_eq_of_instance (w w' : World) (h : w'.instance_ = w.instance_) :
    registry w' = registry w := by
  cases w with
  | mk i l =>
    cases w' with
    | mk i' l' =>
      simp only at h
      subst h
      cases i' <;> rfl

theorem registry_get (w : World) : registry (get w).2 = registry w := by
  cases w with
  | mk i l => cases i <;> rfl

theorem Connect_busy (host user pass : GoString) (t : Dialer) (w : World) (s0 : Session)
    (h : registry w host = some s0) :
    Connect host user pass t w = (.error .ErrIsBusy, w) := by
  have hg := get_of_entry w host s0 h
  unfold Connect
  rw [hg]
  simp only
  rw [get_fst_s, h]

theorem Connect_free (host user pass : GoString) (t : Dialer) (w : World)
    (h : registry w host = none) :
    Connect host user pass t w =
      match connect host user pass t (get w).2 with
      | (.error err, w1) => (.error err, w1)
      | (.ok sess, w1) =>
        (.ok sess,
          { w1 with instance_ := some { s := Function.update (registry w) host (some sess) } }) := by
  unfold Connect
  have : (get w) = ((get w).1, (get w).2) := rfl
  rw [this]
  simp only
  rw [get_fst_s, h]

theorem registry_Close (s : Session) (w : World) :
    registry (s.Close w) = Function.update (registry w) s.host none := by
  unfold Session.Close
  simp only [registry_of_instance, get_fst_s]
  rw [registry_call, registry_call]

/-- The registry after any `Connect`: the new entry on success, no change
otherwise. -/
theorem registry_Connect (host user pass : GoString) (t : Dialer) (w : World) :
    (∀ s w', Connect host user pass t w = (.ok s, w') →
      registry w host = none ∧ s.host = host ∧
        registry w' = Function.update (registry w) host (some s)) ∧
    (∀ e w', Connect host user pass t w = (.error e, w') → registry w' = registry w) := by
  cases hreg : registry w host with
  | some s0 =>
    rw [Connect_busy _ _ _ _ _ _ hreg]
    constructor
    · intro s w' h; simp at h
    · intro e w' h
      simp at h
      rw [h.2]
  | none =>
    rw [Connect_free _ _ _ _ _ hreg]
    have hi := connect_instance host user pass t (get w).2
    cases hc : connect host user pass t (get w).2 with
    | mk res w1 =>
      rw [hc] at hi
      cases res with
      | error e1 =>
        constructor
        · intro s w' h; simp at h
        · intro e w' h
          simp at h
          obtain ⟨-, rfl⟩ := h
          rw [registry_eq_of_instance _ _ hi]
          exact registry_get w
      | ok s1 =>
        constructor
        · intro s w' h
          simp at h
          obtain ⟨rfl, rfl⟩ := h
          exact ⟨rfl, connect_host _ _ _ _ _ _ _ hc, rfl⟩
        · intro e w' h; simp at h

theorem connect_error_library (host user pass : GoString) (t : Dialer) (w w' : World)
    (e : Error) (h : connect host user pass t w = (.error e, w')) :
    ∃ code, e = Error.library code := by
  unfold connect at h
  repeat' split at h
  all_goals simp at h
  all_goals exact ⟨_, h.1.symm⟩

theorem get_Close (s : Session) (w : World) : (get (s.Close w)).2 = s.Close w := rfl

/-! ## Runs of the registry -/

theorem filter_erase_host (l : List Session) (s : Session) (h : GoString) :
    (l.erase s).filter (fun x => decide (x.host = h))
      = if s.host = h then (l.filter (fun x => decide (x.host = h))).erase s
        else l.filter (fun x => decide (x.host = h)) := by
  induction l with
  | nil => simp
  | cons a l ih =>
    by_cases ha : a = s
    · subst ha
      by_cases hh : a.host = h <;> simp [hh]
    · have hne : (a == s) = false := by simpa using ha
      rw [List.erase_cons, hne]
      by_cases hs : s.host = h
      · by_cases hh : a.host = h
        · simp [List.filter_cons, hh, hs, ih, List.erase_cons, hne]
        · simp [List.filter_cons, hh, hs, ih]
      · by_cases hh : a.host = h <;> simp [List.filter_cons, hh, hs, ih]

theorem Consistent_start (w : World) (hw : ∀ h, registry w h = none) :
    (Run.start w).Consistent := by
  intro h
  simp [Run.start, Run.liveOn, hw h]

theorem Consistent_Connect (st : Run) (host user pass : GoString) (t : Dialer)
    (hst : st.Consistent) : (st.step (.Connect host user pass t)).Consistent := by
  obtain ⟨hok, herr⟩ := registry_Connect host user pass t st.world
  intro h
  cases hC : Connect host user pass t st.world with
  | mk res w' =>
    cases res with
    | error e =>
      have := herr e w' hC
      simp only [Run.step, hC, Run.liveOn]
      rw [this]
      exact hst h
    | ok s =>
      obtain ⟨hfree, hhost, hreg⟩ := hok s w' hC
      simp only [Run.step, hC, Run.liveOn]
      rw [hreg, List.filter_append]
      have hold := hst h
      simp only [Run.liveOn] at hold
      by_cases hh : h = host
      · subst hh
        rw [hold, hfree]
        simp [hhost]
      · rw [hold, Function.update_noteq hh]
        have : ¬ s.host = h := by rw [hhost]; exact fun e => hh e.symm
        simp [this]

theorem Consistent_Close (st : Run) (s : Session) (hst : st.Consistent)
    (hlive : s ∈ st.live) : (st.step (.Close s)).Consistent := by
  intro h
  simp only [Run.step, Run.liveOn]
  rw [registry_Close, filter_erase_host]
  have hold := hst h
  simp only [Run.liveOn] at hold
  by_cases hh : s.host = h
  · subst hh
    have hmem : s ∈ st.live.filter (fun x => decide (x.host = s.host)) := by
      simp [hlive]
    rw [hold] at hmem ⊢
    cases hr : registry st.world s.host with
    | none => rw [hr] at hmem; simp at hmem
    | some s' =>
      rw [hr] at hmem
      have : s = s' := by simpa using hmem
      subst this
      simp
  · rw [if_neg hh, hold, Function.update_noteq (fun e => hh e.symm)]

theorem Consistent_exec (calls : List Call) (st : Run) (hst : st.Consistent)
    (hc : closesLive st calls = true) : (st.exec calls).Consistent := by
  induction calls generalizing st with
  | nil => exact hst
  | cons c cs ih =>
    cases c with
    | Connect host user pass t =>
      simp only [closesLive] at hc
      exact ih _ (Consistent_Connect st host user pass t hst) hc
    | Close s =>
      simp only [closesLive, Bool.and_eq_true, decide_eq_true_eq] at hc
      exact ih _ (Consistent_Close st s hst hc.1) hc.2

/-! ## Claims on the registry -/

/-- C4 as stated fails when a session already closed is closed again: from
the empty registry, connect, close, connect again, close the first session a
second time, connect a third time. Every `Close` is on a session returned
before, the third `Connect` succeeds, and two sessions of the host are live. -/
theorem C4_counterexample :
    closesReturned (Run.start World.init) staleClose = true ∧
      ((Run.start World.init).exec staleClose).liveOn (lit "host:22")
        = [sessionOf (lit "host:22") 20, sessionOf (lit "host:22") 30] ∧
      ¬ (((Run.start World.init).exec staleClose).liveOn (lit "host:22")).length ≤ 1 := by
  refine ⟨by decide, by decide, by decide⟩

/-- C4 (single-session invariant, amended). Starting from an empty registry,
after every finite sequence of `Connect` calls and of `Close` calls each made
on a session that is live when it is closed (returned by a successful
`Connect` and not closed before), taken one at a time with the transport
succeeding or failing arbitrarily, every host has at most one live session,
and while a host has one every `Connect` to it fails with `ErrIsBusy`. -/
theorem C4_single_session (w : World) (calls : List Call) (h : GoString)
    (hw : ∀ h', registry w h' = none)
    (hc : closesLive (Run.start w) calls = true) :
    (((Run.start w).exec calls).liveOn h).length ≤ 1 ∧
      ((∃ s ∈ ((Run.start w).exec calls).live, s.host = h) →
        ∀ (user pass : GoString) (t : Dialer),
          Connect h user pass t ((Run.start w).exec calls).world
            = (.error Error.ErrIsBusy, ((Run.start w).exec calls).world)) := by
  have hcons := Consistent_exec calls _ (Consistent_start w hw) hc h
  constructor
  · rw [hcons]
    cases registry ((Run.start w).exec calls).world h <;> simp
  · rintro ⟨s, hs, hhost⟩ user pass t
    have hmem : s ∈ ((Run.start w).exec calls).liveOn h := by
      simp [Run.liveOn, hs, hhost]
    rw [hcons] at hmem
    cases hr : registry ((Run.start w).exec calls).world h with
    | none => rw [hr] at hmem; simp at hmem
    | some s0 => exact Connect_busy _ _ _ _ _ _ hr

/-- Connect, a second connect refused, close, connect again: one live
session at the end, and a further connect is refused. -/
theorem C4_single_session_witness :
    (∀ h', registry World.init h' = none) ∧
      closesLive (Run.start World.init) orderly = true ∧
      ((Run.start World.init).exec orderly).live = [sessionOf (lit "host:22") 30] ∧
      ((((Run.start World.init).exec orderly).liveOn (lit "host:22")).length ≤ 1 ∧
        ((∃ s ∈ ((Run.start World.init).exec orderly).live, s.host = lit "host:22") →
          ∀ (user pass : GoString) (t : Dialer),
            Connect (lit "host:22") user pass t ((Run.start World.init).exec orderly).world
              = (.error Error.ErrIsBusy, ((Run.start World.init).exec orderly).world))) :=
  ⟨fun _ => rfl, by decide, by decide,
    C4_single_session World.init orderly (lit "host:22") (fun _ => rfl) (by decide)⟩

/-- C5 (Connect on a busy host). If the registry already holds an entry for
`host`, `Connect` returns no session and `ErrIsBusy`, and the world is the one
it was given: no call to the transport was recorded and the registry is
unchanged. If the registry holds no entry for `host` and the transport
succeeds with session `s`, `Connect` returns `s` with a nil error, and the new
registry maps `host` to `s` and agrees with the old one on every other host. -/
theorem C5_connect_busy (w : World) (host user pass : GoString) (t : Dialer) :
    (∀ s0, registry w host = some s0 →
      Connect host user pass t w = (.error Error.ErrIsBusy, w)) ∧
    (∀ s w1, registry w host = none →
      connect host user pass t (get w).2 = (.ok s, w1) →
      ∃ w2, Connect host user pass t w = (.ok s, w2) ∧ registry w2 host = some s ∧
        ∀ h, h ≠ host → registry w2 h = registry w h) := by
  constructor
  · intro s0 h
    exact Connect_busy _ _ _ _ _ _ h
  · intro s w1 hfree hc
    rw [Connect_free _ _ _ _ _ hfree, hc]
    refine ⟨_, rfl, ?_, ?_⟩
    · simp [registry_of_instance]
    · intro h hne
      simp [registry_of_instance, Function.update_noteq hne]

/-- On a fresh process `Connect` to `host:22` succeeds and records the
session; a second `Connect` to the same host is refused and changes nothing. -/
theorem C5_connect_busy_witness :
    (∃ w2, Connect (lit "host:22") (lit "u") (lit "p") (dialOk 10) World.init
        = (.ok (sessionOf (lit "host:22") 10), w2) ∧
      registry w2 (lit "host:22") = some (sessionOf (lit "host:22") 10) ∧
      ∀ h, h ≠ lit "host:22" → registry w2 h = registry World.init h) ∧
    Connect (lit "host:22") (lit "u") (lit "p") (dialOk 20)
        (Connect (lit "host:22") (lit "u") (lit "p") (dialOk 10) World.init).2
      = (.error Error.ErrIsBusy,
          (Connect (lit "host:22") (lit "u") (lit "p") (dialOk 10) World.init).2) :=
  ⟨(C5_connect_busy World.init (lit "host:22") (lit "u") (lit "p") (dialOk 10)).2
      (sessionOf (lit "host:22") 10) _ rfl rfl,
    (C5_connect_busy (Connect (lit "host:22") (lit "u") (lit "p") (dialOk 10) World.init).2
      (lit "host:22") (lit "u") (lit "p") (dialOk 20)).1
      (sessionOf (lit "host:22") 10) (by decide)⟩

/-- C6 (Close releases the registry slot). After `s.Close()` the registry has
no entry for `s.host` and its entries for the other hosts are unchanged; a
following `Connect(s.host, ...)` does not fail with `ErrIsBusy`, and it returns
the session of the transport whenever the transport succeeds. -/
theorem C6_close_releases (w : World) (s : Session) (user pass : GoString) (t : Dialer) :
    registry (s.Close w) s.host = none ∧
    (∀ h, h ≠ s.host → registry (s.Close w) h = registry w h) ∧
    (Connect s.host user pass t (s.Close w)).1 ≠ .error Error.ErrIsBusy ∧
    (∀ s2 w2, connect s.host user pass t (s.Close w) = (.ok s2, w2) →
      (Connect s.host user pass t (s.Close w)).1 = .ok s2) := by
  have hnone : registry (s.Close w) s.host = none := by
    rw [registry_Close]; simp
  refine ⟨hnone, ?_, ?_, ?_⟩
  · intro h hne
    rw [registry_Close, Function.update_noteq hne]
  · rw [Connect_free _ _ _ _ _ hnone, get_Close]
    cases hc : connect s.host user pass t (s.Close w) with
    | mk res w1 =>
      cases res with
      | error e =>
        obtain ⟨code, rfl⟩ := connect_error_library _ _ _ _ _ _ _ hc
        simp
      | ok s1 => simp
  · intro s2 w2 hc
    rw [Connect_free _ _ _ _ _ hnone, get_Close, hc]

/-- `Connect("host:22","u","p")` succeeds, `Close()`, and
`Connect("host:22","u","p")` succeeds again. -/
theorem C6_close_releases_witness :
    (Connect (lit "host:22") (lit "u") (lit "p") (dialOk 10) World.init).1
        = .ok (sessionOf (lit "host:22") 10) ∧
      registry ((sessionOf (lit "host:22") 10).Close
        (Connect (lit "host:22") (lit "u") (lit "p") (dialOk 10) World.init).2)
          (lit "host:22") = none ∧
      (Connect (lit "host:22") (lit "u") (lit "p") (dialOk 20)
        ((sessionOf (lit "host:22") 10).Close
          (Connect (lit "host:22") (lit "u") (lit "p") (dialOk 10) World.init).2)).1
        = .ok (sessionOf (lit "host:22") 20) :=
  ⟨rfl,
    (C6_close_releases (Connect (lit "host:22") (lit "u") (lit "p") (dialOk 10) World.init).2
      (sessionOf (lit "host:22") 10) (lit "u") (lit "p") (dialOk 20)).1,
    (C6_close_releases (Connect (lit "host:22") (lit "u") (lit "p") (dialOk 10) World.init).2
      (sessionOf (lit "host:22") 10) (lit "u") (lit "p") (dialOk 20)).2.2.2
      (sessionOf (lit "host:22") 20) _ rfl⟩

end sshc
